/-
Verification of the SwClock repository core against its design document.

The C sources are shallowly embedded in Lean 4:
  * `SwClockPI`  models src/sw_clock/sw_clock.c (PI-disciplined clock engine)
  * `SwClockSS`  models src/sw_clock/swclock.c (scale+slew clock form)
  * `Monitor`    models src/sw_clock/sw_clock_monitor.c (MTIE computation)
  * `Ringbuf`    models src/sw_clock/sw_clock_ringbuf.c (SPSC byte ring)
  * `KF`         models src/kf_servo/kf_servo.c (two-state Kalman filter)

Conventions: C `double` values are embedded as exact rationals (ℚ);
64-bit signed integers as ℤ and unsigned sizes/counters as ℕ (overflow is
unreachable at the magnitudes involved); `(int64_t)`/`(long long)` casts of
doubles truncate toward zero (`truncInt`); `llround` rounds half away from
zero (`llround`).  Informational fields of the PI clock that feed no claim
(`maxerror`/`esterror`, which are produced with `sqrt` purely for adjtimex
readback) are not carried in the state.
-/
import Mathlib

/-- C cast `(long long)(double)`: truncation toward zero
(for negative values, `-⌊-q⌋` is the ceiling of `q`). -/
def truncInt (q : ℚ) : Int := if 0 ≤ q then ⌊q⌋ else -⌊-q⌋

/-- C `llround`: round to nearest, halfway cases away from zero. -/
def llround (q : ℚ) : Int := if 0 ≤ q then ⌊q + 1/2⌋ else -⌊-q + 1/2⌋

namespace SwClockPI

/-- Constant `SWCLOCK_PHASE_EPS_NS` from sw_clock_constants.h (20 µs). -/
def PHASE_EPS_NS : Int := 20000

/-- Constant `SWCLOCK_PI_MAX_PPM` from sw_clock_constants.h. -/
def PI_MAX_PPM : ℚ := 200

/-- Constant `SWCLOCK_PI_KP_PPM_PER_S` from sw_clock_constants.h. -/
def PI_KP : ℚ := 200

/-- Constant `SWCLOCK_PI_KI_PPM_PER_S2` from sw_clock_constants.h. -/
def PI_KI : ℚ := 8

/-- Constant `SWCLOCK_POLL_NS` from sw_clock_constants.h (10 ms). -/
def POLL_NS : Int := 10000000

/-- Mutable fields of `struct SwClock` (sw_clock.c) that the claims touch.
`ref_mono_raw` is represented implicitly: every state transition that reads
the raw clock takes the elapsed raw interval `elapsed_raw_ns` as a parameter. -/
structure State where
  base_rt_ns : Int
  base_mono_ns : Int
  cached_total_factor : ℚ
  freq_scaled_ppm : Int
  pi_freq_ppm : ℚ
  pi_int_error_s : ℚ
  pi_servo_enabled : Bool
  remaining_phase_ns : Int
  last_remaining_phase_ns : Int
  stuck_poll_count : Nat
  max_observed_phase_error_s : ℚ
  accumulated_error_variance : ℚ
  error_samples_count : Nat
  status : Int
  constant : Int
  tick : Int
  tai : Int
  deriving Repr, DecidableEq

/-- Helper `scaledppm_to_ppm` (sw_clock.c line 39). -/
def scaledppm_to_ppm (scaled : Int) : ℚ := (scaled : ℚ) / 65536

/-- Helper `scaledppm_to_factor` (sw_clock_utilities.h line 91). -/
def scaledppm_to_factor (scaled : Int) : ℚ := 1 + (scaled : ℚ) / (65536 * 1000000)

/-- Function `total_factor` (sw_clock.c line 117). -/
def total_factor (s : State) : ℚ :=
  1 + (scaledppm_to_ppm s.freq_scaled_ppm + s.pi_freq_ppm) / 1000000

/-- The phase attributed to the PI rate during a rebase over `elapsed_raw_ns`:
`applied_phase_ns = (long long)(elapsed_raw_ns * (factor - base_factor))`,
sw_clock.c lines 148-150 (with the non-negative clamp of line 129). -/
def appliedPhase (s : State) (elapsed_raw_ns : Int) : Int :=
  truncInt ((max elapsed_raw_ns 0 : Int) * (total_factor s - scaledppm_to_factor s.freq_scaled_ppm))

/-- Function `swclock_rebase_now_and_update` (sw_clock.c lines 124-174). -/
def rebase (s : State) (elapsed_raw_ns : Int) : State :=
  let elapsed : Int := max elapsed_raw_ns 0
  let factor := total_factor s
  let adj_elapsed_ns := truncInt ((elapsed : ℚ) * factor)
  let applied := appliedPhase s elapsed_raw_ns
  let remaining :=
    if s.remaining_phase_ns ≠ 0 then
      if s.remaining_phase_ns.natAbs ≤ applied.natAbs then 0
      else s.remaining_phase_ns - applied
    else s.remaining_phase_ns
  { s with
    base_rt_ns := s.base_rt_ns + adj_elapsed_ns
    base_mono_ns := s.base_mono_ns + adj_elapsed_ns
    remaining_phase_ns := remaining
    cached_total_factor := factor }

/-- The two sequential clamps of the PI output to ±MAX_PPM
(sw_clock.c lines 224-232). -/
def clampPPM (u : ℚ) : ℚ :=
  let u2 := if u > PI_MAX_PPM then PI_MAX_PPM else u
  if u2 < -PI_MAX_PPM then -PI_MAX_PPM else u2

/-- Function `swclock_pi_step` (sw_clock.c lines 197-272): one PI control step. -/
def pi_step (s : State) (dt_s : ℚ) : State :=
  if s.pi_servo_enabled = false then s
  else
    let err_s : ℚ := (s.remaining_phase_ns : ℚ) / 1000000000
    let int1 := s.pi_int_error_s + err_s * dt_s
    let u0 := PI_KP * err_s + PI_KI * int1
    let u1 :=
      if s.remaining_phase_ns ≠ 0 ∧ |err_s| < 1/100 then
        if |u0| < 100 then (if s.remaining_phase_ns > 0 then (100 : ℚ) else -100) else u0
      else u0
    let s1 := { s with pi_int_error_s := int1, pi_freq_ppm := clampPPM u1 }
    if s1.remaining_phase_ns.natAbs ≤ PHASE_EPS_NS.natAbs then
      { s1 with
        remaining_phase_ns := 0
        pi_int_error_s := 0
        pi_freq_ppm := 0
        max_observed_phase_error_s := s1.max_observed_phase_error_s * 0 }
    else s1

/-- Function `swclock_update_error_estimates` (sw_clock.c lines 275-305), restricted to
the state fields it mutates that feed later steps; the `maxerror`/`esterror`
readback outputs (computed with `sqrt`, used by nothing the claims mention)
are not modelled. -/
def update_error_estimates (s : State) : State :=
  let current : ℚ := |(s.remaining_phase_ns : ℚ) / 1000000000|
  let maxo := if current > s.max_observed_phase_error_s then current
              else s.max_observed_phase_error_s
  let cnt := s.error_samples_count + 1
  let alpha : ℚ := if cnt > 100 then 1/100 else 1 / (cnt : ℚ)
  let contrib := current * current
  let acc := (1 - alpha) * s.accumulated_error_variance + alpha * contrib
  { s with
    max_observed_phase_error_s := maxo
    accumulated_error_variance := acc
    error_samples_count := cnt }

/-- Function `swclock_poll` (sw_clock.c lines 308-356).  `elapsed_raw_ns` is the raw
monotonic interval since the previous rebase; in the source `dt_ns` equals
that interval (the new reference minus the old one). -/
def poll (s : State) (elapsed_raw_ns : Int) : State :=
  let s1 := rebase s elapsed_raw_ns
  let dt_s : ℚ :=
    if elapsed_raw_ns > 0 then (elapsed_raw_ns : ℚ) / 1000000000
    else (POLL_NS : ℚ) / 1000000000
  let s2 := if s1.pi_servo_enabled then pi_step s1 dt_s else s1
  let s3 :=
    if s2.remaining_phase_ns ≠ 0 ∧ s2.remaining_phase_ns = s2.last_remaining_phase_ns then
      { s2 with stuck_poll_count := s2.stuck_poll_count + 1 }
    else { s2 with stuck_poll_count := 0 }
  let s4 := { s3 with last_remaining_phase_ns := s3.remaining_phase_ns }
  update_error_estimates s4

/-- Adjustment mode bits (sw_clock.h lines 64-73). -/
def ADJ_OFFSET : Nat := 0x0001

def ADJ_FREQUENCY : Nat := 0x0002

def ADJ_STATUS : Nat := 0x0010

def ADJ_TAI : Nat := 0x0080

def ADJ_SETOFFSET : Nat := 0x0100

def ADJ_NANO : Nat := 0x2000

/-- Return codes (sw_clock.h lines 75-76). -/
def TIME_OK : Int := 0

def TIME_BAD : Int := 5

/-- Input fields of `struct timex` used by `swclock_adjtime`. -/
structure Timex where
  modes : Nat
  offset : Int
  freq : Int
  status : Int
  constant : Int
  deriving Repr, DecidableEq

/-- State mutation of `swclock_adjtime` (sw_clock.c lines 552-690), on the
non-Apple path where `ADJ_SETOFFSET` falls back to the `offset` field.
The readback writes into `*tptr` and the unconditional `return TIME_OK`
are modelled by `adjtime_checked` below. -/
def adjtime (s : State) (tx : Timex) (elapsed_raw_ns : Int) : State :=
  let s1 := rebase s elapsed_raw_ns
  let s2 := if tx.modes &&& ADJ_FREQUENCY ≠ 0 then { s1 with freq_scaled_ppm := tx.freq } else s1
  let s3 :=
    if tx.modes &&& ADJ_OFFSET ≠ 0 then
      let delta_ns := if tx.modes &&& ADJ_NANO ≠ 0 then tx.offset else tx.offset * 1000
      { s2 with
        remaining_phase_ns := s2.remaining_phase_ns + delta_ns
        pi_int_error_s := 0
        pi_freq_ppm := 0 }
    else s2
  let s4 :=
    if tx.modes &&& ADJ_SETOFFSET ≠ 0 then
      let delta_ns := if tx.modes &&& ADJ_NANO ≠ 0 then tx.offset else tx.offset * 1000
      { s3 with
        base_rt_ns := s3.base_rt_ns + delta_ns
        remaining_phase_ns := 0
        pi_int_error_s := 0 }
    else s3
  let s5 := if tx.modes &&& ADJ_STATUS ≠ 0 then { s4 with status := tx.status } else s4
  if tx.modes &&& ADJ_TAI ≠ 0 then { s5 with tai := tx.constant } else s5

/-- Function `swclock_adjtime` including its argument validation (sw_clock.c lines
552-553): a NULL clock or NULL timex yields `errno = EINVAL; return -1`;
every non-NULL call mutates the state and returns `TIME_OK`.
NULL pointers are modelled as `none`. -/
def adjtime_checked (c : Option State) (t : Option Timex) (elapsed_raw_ns : Int) :
    Option State × Int :=
  match c, t with
  | some s, some tx => (some (adjtime s tx elapsed_raw_ns), TIME_OK)
  | _, _ => (none, -1)

/-- Function `swclock_settime` for `CLOCK_REALTIME` (sw_clock.c lines 537-550);
the timespec is passed as (tv_sec, tv_nsec). -/
def settime (s : State) (tv_sec tv_nsec : Int) (elapsed_raw_ns : Int) : State :=
  let s1 := rebase s elapsed_raw_ns
  { s1 with
    base_rt_ns := if tv_sec < 0 then 0 else tv_sec * 1000000000 + tv_nsec
    remaining_phase_ns := 0
    pi_int_error_s := 0
    pi_freq_ppm := 0 }

/-- Function `swclock_enable_PIServo` (sw_clock.c lines 804-818). -/
def enable_PIServo (s : State) : State :=
  if s.pi_servo_enabled then s
  else { s with pi_servo_enabled := true, pi_int_error_s := 0, pi_freq_ppm := 0 }

/-- Function `swclock_disable_PIServo` (sw_clock.c lines 821-832). -/
def disable_PIServo (s : State) : State :=
  if s.pi_servo_enabled then
    { s with pi_servo_enabled := false, pi_int_error_s := 0, pi_freq_ppm := 0 }
  else s

/-- Function `swclock_disable_pi_servo` (sw_clock.c lines 177-186): the older disable
entry point, which clears only the enable flag. -/
def disable_pi_servo (s : State) : State := { s with pi_servo_enabled := false }

/-- Function `swclock_create` (sw_clock.c lines 360-448): the clock-state fields after
creation, with the initial CLOCK_REALTIME / CLOCK_MONOTONIC_RAW readings
passed in as nanosecond values. -/
def initState (rt0 mono0 : Int) : State where
  base_rt_ns := rt0
  base_mono_ns := mono0
  cached_total_factor := 1
  freq_scaled_ppm := 0
  pi_freq_ppm := 0
  pi_int_error_s := 0
  pi_servo_enabled := true
  remaining_phase_ns := 0
  last_remaining_phase_ns := 0
  stuck_poll_count := 0
  max_observed_phase_error_s := 0
  accumulated_error_variance := 0
  error_samples_count := 0
  status := 0
  constant := 0
  tick := 0
  tai := 0

/-- The state-mutating entry points of the PI-disciplined clock. -/
inductive Op where
  | poll (elapsed_raw_ns : Int)
  | adjtime (tx : Timex) (elapsed_raw_ns : Int)
  | settime (tv_sec tv_nsec elapsed_raw_ns : Int)
  | enablePI
  | disablePI
  | disablePIOld
  deriving Repr

/-- Apply one entry point to the clock state. -/
def step (s : State) : Op → State
  | Op.poll e => poll s e
  | Op.adjtime tx e => adjtime s tx e
  | Op.settime sec nsec e => settime s sec nsec e
  | Op.enablePI => enable_PIServo s
  | Op.disablePI => disable_PIServo s
  | Op.disablePIOld => disable_pi_servo s

/-- Run a sequence of entry points from a state. -/
def run (s : State) (ops : List Op) : State := ops.foldl step s

/-- A state is reachable if some sequence of entry points produces it from a
freshly created clock. -/
def Reachable (s : State) : Prop :=
  ∃ rt0 mono0 ops, s = run (initState rt0 mono0) ops

/-- The frequency-clamp invariant of the spec: `|pi_freq_ppm| ≤ MAX_PPM`. -/
def FreqInv (s : State) : Prop := |s.pi_freq_ppm| ≤ PI_MAX_PPM

/-- Pre-state of the C1 counterexample: an outstanding positive phase of
1 000 000 ns while the PI output is −100 ppm (sign-opposed). -/
def c1Pre : State := { initState 0 0 with remaining_phase_ns := 1000000, pi_freq_ppm := -100 }

/-- The adjtimex request of the C3 counterexample trace:
`ADJ_OFFSET ||| ADJ_NANO = 8193`, slewing by −1 s. -/
def c3Tx : Timex := { modes := 8193, offset := -1000000000, freq := 0, status := 0, constant := 0 }

/-- C3 counterexample trace: slew −1 s, poll once (PI output saturates at
−200 ppm), disable the servo through the older entry point
`swclock_disable_pi_servo` (which clears only the enable flag), then poll over
a long interval so the rebase leaves `remaining_phase_ns = -10000`, inside the
anti-windup band. -/
def c3Ops : List Op :=
  [Op.adjtime c3Tx 0, Op.poll 10000000, Op.disablePIOld, Op.poll 4999950000000]

/-- The reachable pre-state of the C3 counterexample. -/
def c3Pre : State := run (initState 0 0) c3Ops

/-- The state in which the anti-windup zeroing has fired: all three PI
quantities are zero. -/
def AntiWindupZeroed (s : State) : Prop :=
  s.remaining_phase_ns = 0 ∧ s.pi_int_error_s = 0 ∧ s.pi_freq_ppm = 0

end SwClockPI

namespace SwClockSS

/-- State of `struct SwClock` from swclock.c (the scale+slew form). -/
structure State where
  ref_mono_ns : Int
  ref_out_ns : Int
  last_out_ns : Int
  base_scale : ℚ
  slew_remaining_ns : Int
  slew_window_left_ns : Int
  slew_scale : ℚ
  backstep_guard_ns : Int
  deriving Repr, DecidableEq

/-- Function `rebaseline_locked` (swclock.c lines 43-47). -/
def rebaseline (s : State) (mono_ns out_ns : Int) : State :=
  { s with ref_mono_ns := mono_ns, ref_out_ns := out_ns, slew_scale := 0 }

/-- Function `map_now_locked` (swclock.c lines 49-83): advances the in-flight slew
bookkeeping and returns the updated state together with the mapped output. -/
def map_now (s : State) (mono_ns : Int) : State × Int :=
  let d_mono : Int := max (mono_ns - s.ref_mono_ns) 0
  let s1 :=
    if s.slew_window_left_ns > 0 ∧ s.slew_remaining_ns ≠ 0 then
      { s with slew_scale := (s.slew_remaining_ns : ℚ) / (s.slew_window_left_ns : ℚ) }
    else { s with slew_scale := 0, slew_remaining_ns := 0, slew_window_left_ns := 0 }
  let s2 :=
    if s1.slew_window_left_ns > 0 then
      let step := min d_mono s1.slew_window_left_ns
      let repaid0 := llround (s1.slew_scale * (step : ℚ))
      let repaid :=
        if (s1.slew_remaining_ns > 0 ∧ repaid0 > s1.slew_remaining_ns) ∨
           (s1.slew_remaining_ns < 0 ∧ repaid0 < s1.slew_remaining_ns) then
          s1.slew_remaining_ns
        else repaid0
      let s1a := { s1 with
        slew_remaining_ns := s1.slew_remaining_ns - repaid
        slew_window_left_ns := s1.slew_window_left_ns - step }
      if s1a.slew_window_left_ns = 0 then
        { s1a with
          ref_out_ns := s1a.ref_out_ns + llround ((s1a.base_scale + s1a.slew_scale) * (step : ℚ))
          ref_mono_ns := s1a.ref_mono_ns + step }
      else s1a
    else s1
  let scale := max (s2.base_scale + s2.slew_scale) 0
  (s2, s2.ref_out_ns + llround (scale * ((mono_ns - s2.ref_mono_ns : Int) : ℚ)))

/-- Function `swclock_now_ns` (swclock.c lines 108-123): maps, then applies the
backstep guard against `last_out_ns` and publishes the new floor. -/
def now_ns (s : State) (mono_ns : Int) : State × Int :=
  let (s1, raw) := map_now s mono_ns
  let last := s1.last_out_ns
  let out := if raw < last then last else raw
  ({ s1 with last_out_ns := out }, out)

/-- Function `swclock_set_freq` (swclock.c lines 125-133). -/
def set_freq (s : State) (mono_ns : Int) (freq_ppb : ℚ) : State :=
  let (s1, out) := map_now s mono_ns
  let s2 := rebaseline s1 mono_ns out
  { s2 with base_scale := 1 + freq_ppb / 1000000000 }

/-- Function `swclock_adjust` (swclock.c lines 135-145). -/
def adjust (s : State) (mono_ns offset_ns slew_window_ns : Int) : State :=
  let w := if slew_window_ns < 1 then 1 else slew_window_ns
  let (s1, out) := map_now s mono_ns
  let s2 := rebaseline s1 mono_ns out
  { s2 with slew_remaining_ns := offset_ns, slew_window_left_ns := |w| }

/-- Function `swclock_align_now` (swclock.c lines 165-175). -/
def align_now (s : State) (mono_ns target_now_ns : Int) : State :=
  let s1 := rebaseline s mono_ns target_now_ns
  { s1 with
    slew_remaining_ns := 0
    slew_window_left_ns := 0
    slew_scale := 0
    last_out_ns := target_now_ns }

/-- Function `swclock_create` (swclock.c lines 85-100): initial state given the
monotonic reading at creation. -/
def initState (mono0 : Int) : State where
  ref_mono_ns := mono0
  ref_out_ns := 0
  last_out_ns := 0
  base_scale := 1
  slew_remaining_ns := 0
  slew_window_left_ns := 0
  slew_scale := 0
  backstep_guard_ns := 0

/-- The entry points interleaved in claim C2: `now_ns` reads with arbitrary
`set_freq` and `adjust` transitions, each at an arbitrary monotonic instant. -/
inductive Op where
  | now (mono_ns : Int)
  | setFreq (mono_ns : Int) (freq_ppb : ℚ)
  | adjust (mono_ns offset_ns slew_window_ns : Int)

/-- Run a sequence of operations, collecting the values returned by the
`now_ns` calls in order. -/
def runOps (s : State) : List Op → State × List Int
  | [] => (s, [])
  | Op.now m :: rest =>
      let (s1, o) := now_ns s m
      let (s2, os) := runOps s1 rest
      (s2, o :: os)
  | Op.setFreq m p :: rest => runOps (set_freq s m p) rest
  | Op.adjust m off w :: rest => runOps (adjust s m off w) rest

end SwClockSS

namespace Monitor

/-- Function `compute_mtie_tau` (sw_clock_monitor.c lines 186-211).  The snapshot array
is modelled as a total function `te : ℕ → ℚ` on buffer indices (the loop
`for i = 0; i <= count - tau_samples; i++` reads `samples[i + tau_samples]` up
to index `count`, one past the `count` snapshot entries, so the value at
index `count` is whatever resides in the buffer there); `count` is the number
of snapshot samples.  The `(uint32_t)` cast of `tau_s / sample_dt_s`
truncates toward zero. -/
def compute_mtie_tau (te : ℕ → ℚ) (count : ℕ) (sample_dt_s tau_s : ℚ) : ℚ :=
  let tau_samples : ℕ := (truncInt (tau_s / sample_dt_s)).toNat
  if tau_samples ≥ count ∨ tau_samples = 0 then 0
  else ((List.range (count - tau_samples + 1)).map
    (fun i => |te (i + tau_samples) - te i|)).foldl max 0

end Monitor

namespace KF

/-- 2×2 matrix of doubles, as used for `P` and `Q` in kf_servo.c. -/
structure Mat2 where
  a00 : ℚ
  a01 : ℚ
  a10 : ℚ
  a11 : ℚ
  deriving Repr, DecidableEq

/-- Helper `mm2` (kf_servo.c lines 40-45). -/
def mm2 (A B : Mat2) : Mat2 where
  a00 := A.a00 * B.a00 + A.a01 * B.a10
  a01 := A.a00 * B.a01 + A.a01 * B.a11
  a10 := A.a10 * B.a00 + A.a11 * B.a10
  a11 := A.a10 * B.a01 + A.a11 * B.a11

/-- Helper `ma2` (kf_servo.c lines 46-49). -/
def ma2 (A B : Mat2) : Mat2 where
  a00 := A.a00 + B.a00
  a01 := A.a01 + B.a01
  a10 := A.a10 + B.a10
  a11 := A.a11 + B.a11

/-- State of `struct KalmanFilter` (kf_servo.c lines 14-37). -/
structure KalmanFilter where
  x0 : ℚ
  x1 : ℚ
  P : Mat2
  Q : Mat2
  R : ℚ
  adaptiveR : ℚ
  K0 : ℚ
  K1 : ℚ
  innovation : ℚ
  S : ℚ
  dt : ℚ
  alpha : ℚ
  beta : ℚ
  avgInnovation : ℚ
  innovationVar : ℚ
  baseQ : ℚ
  prevDrift : ℚ
  updateCount : Nat
  initialized : Bool
  deriving Repr, DecidableEq

/-- Constant `MAX_DRIFT` (kf_servo.c line 207): 50 ppb in s/s. -/
def MAX_DRIFT : ℚ := 1/20000000

/-- Function `kf_create` (kf_servo.c lines 80-91): calloc zeroes everything, then the
safe defaults are installed. -/
def kf_create : KalmanFilter where
  x0 := 0
  x1 := 0
  P := ⟨1000, 0, 0, 100⟩
  Q := ⟨1/1000000000, 0, 0, 1/10000000000⟩
  R := 1/1000000
  adaptiveR := 1/1000000
  K0 := 0
  K1 := 0
  innovation := 0
  S := 0
  dt := 0
  alpha := 19/20
  beta := 99/100
  avgInnovation := 0
  innovationVar := 0
  baseQ := 1/10000000000
  prevDrift := 0
  updateCount := 0
  initialized := false

/-- Function `kf_init` (kf_servo.c lines 97-123). -/
def kf_init (kf : KalmanFilter) (processNoise measurementNoise : ℚ) : KalmanFilter :=
  { kf with
    x0 := 0
    x1 := 0
    P := ⟨1000, 0, 0, 100⟩
    Q := ⟨processNoise, 0, 0, processNoise * (1/10)⟩
    R := measurementNoise
    adaptiveR := measurementNoise
    alpha := 19/20
    beta := 99/100
    baseQ := processNoise * (1/10)
    innovationVar := measurementNoise
    avgInnovation := 0
    prevDrift := 0
    dt := 1
    updateCount := 0
    initialized := false }

/-- The innovation-variance EWMA of `kf_adapt` (kf_servo.c lines 54-56):
`innovationVar = 0.85*innovationVar + 0.15*innovation²`. -/
def kf_adapt_iv (kf : KalmanFilter) : ℚ :=
  (17/20) * kf.innovationVar + (1 - 17/20) * (kf.innovation * kf.innovation)

/-- The adaptive-R update of `kf_adapt` (kf_servo.c lines 58-68): gentle blend
toward the new innovation variance, then clamped to `[0.01R, 20R]`. -/
def kf_adapt_R (kf : KalmanFilter) : ℚ :=
  let iv := kf_adapt_iv kf
  let theo := kf.S + 1/1000000000000
  let ratio := iv / theo
  let aR0 :=
    if ratio > 5/2 then (4/5) * kf.adaptiveR + (1/5) * iv
    else if ratio > 3/2 then (9/10) * kf.adaptiveR + (1/10) * iv
    else if ratio < 2/5 ∧ kf.adaptiveR > kf.R * (2/25) then
      (19/20) * kf.adaptiveR + (1/20) * iv
    else kf.adaptiveR
  let aR1 := if aR0 < kf.R * (1/100) then kf.R * (1/100) else aR0
  if aR1 > kf.R * 20 then kf.R * 20 else aR1

/-- Function `kf_adapt` (kf_servo.c lines 52-77). -/
def kf_adapt (kf : KalmanFilter) : KalmanFilter :=
  if kf.updateCount ≤ 8 then kf
  else
    let kf1 := { kf with innovationVar := kf_adapt_iv kf, adaptiveR := kf_adapt_R kf }
    if kf1.updateCount > 30 then
      let d := |kf1.x1 - kf1.prevDrift|
      let kf2 := { kf1 with prevDrift := kf1.x1 }
      if d > 1/200000000 then
        { kf2 with Q := { kf2.Q with a11 := min (kf2.Q.a11 * (51/50)) (kf2.baseQ * 10) } }
      else if d < 1/10000000000 then
        { kf2 with Q := { kf2.Q with a11 := max (kf2.Q.a11 * (99/100)) (kf2.baseQ * (1/2)) } }
      else kf2
    else kf1

/-- The drift safety clamp (kf_servo.c lines 211-221): input the drift value
after the gentle decay and the current `P[1][1]`; output the stored drift and
`P[1][1]`. -/
def kfDriftClamp (x1 P11 : ℚ) : ℚ × ℚ :=
  let ad := |x1|
  if ad > MAX_DRIFT then
    if ad > 1/5000000 then (0, 10)
    else ((if x1 > 0 then MAX_DRIFT else -MAX_DRIFT), P11)
  else (x1, P11)

/-- Function `kf_update` (kf_servo.c lines 152-242), returning the post-state. -/
def kf_update (kf0 : KalmanFilter) (z dt : ℚ) : KalmanFilter :=
  let kf := { kf0 with dt := dt, updateCount := kf0.updateCount + 1 }
  if kf.initialized = false then
    { kf with x0 := z, x1 := 0, initialized := true }
  else
    let F : Mat2 := ⟨1, dt, 0, 1⟩
    let FT : Mat2 := ⟨1, 0, dt, 1⟩
    let x_pred0 := kf.x0 + dt * kf.x1
    let x_pred1 := kf.x1
    let P1 := ma2 (mm2 (mm2 F kf.P) FT) kf.Q
    let innovation := z - x_pred0
    let S := P1.a00 + kf.adaptiveR
    let K :=
      if |S| > 1/10000000000000000 then
        let k0 := P1.a00 / S
        let k1 := P1.a10 / S
        let pair :=
          if kf.updateCount < 30 then
            let boost : ℚ := 11/10 - (3/1000) * (kf.updateCount : ℚ)
            (k0 * boost, k1 * (boost * (9/10)))
          else (k0, k1)
        let a := |innovation|
        let pair2 :=
          if a > 1/5000 then (pair.1 * (21/20), pair.2)
          else if a < 1/200000 then (pair.1 * (19/20), pair.2 * (49/50))
          else pair
        let k0a := if pair2.1 < 0 then (0 : ℚ) else pair2.1
        let k0b := if k0a > 3/5 then (3/5 : ℚ) else k0a
        let k1a := if pair2.2 < 0 then (0 : ℚ) else pair2.2
        let k1b := if k1a > 1/5 then (1/5 : ℚ) else k1a
        (k0b, k1b)
      else ((0 : ℚ), (0 : ℚ))
    let x0n := x_pred0 + K.1 * innovation
    let x1a := x_pred1 + K.2 * innovation
    let x1b := if kf.updateCount > 50 then x1a * (199/200) else x1a
    let clamped := kfDriftClamp x1b P1.a11
    let P2 : Mat2 := { P1 with a11 := clamped.2 }
    let I_KH : Mat2 := ⟨1 - K.1, 0, -K.2, 1⟩
    let P3 := mm2 I_KH P2
    let kf2 := { kf with
      x0 := x0n
      x1 := clamped.1
      P := P3
      K0 := K.1
      K1 := K.2
      innovation := innovation
      S := S }
    let kf3 := kf_adapt kf2
    if kf3.updateCount = 1 then { kf3 with avgInnovation := kf3.innovation }
    else { kf3 with avgInnovation := (19/20) * kf3.avgInnovation + (1/20) * kf3.innovation }

end KF

namespace Ringbuf

/-- Constant `SWCLOCK_RINGBUF_SIZE` (sw_clock_ringbuf.h line 39): 1 MiB. -/
def SIZE : Nat := 1048576

/-- State of `swclock_ringbuf_t` (sw_clock_ringbuf.h lines 48-56).  The byte array is
a total function on indices (accessed mod `SIZE`); the u64 positions are ℕ
(they only ever grow by at most `SIZE/2 + 4` per push, so 64-bit wraparound
is unreachable). -/
structure swclock_ringbuf_t where
  buffer : Nat → Nat
  write_pos : Nat
  read_pos : Nat
  overrun_flag : Bool
  events_written : Nat
  events_read : Nat
  overrun_count : Nat

/-- Function `swclock_ringbuf_init` (sw_clock_ringbuf.c lines 10-17). -/
def initRB : swclock_ringbuf_t where
  buffer := fun _ => 0
  write_pos := 0
  read_pos := 0
  overrun_flag := false
  events_written := 0
  events_read := 0
  overrun_count := 0

/-- Store one byte at an absolute buffer index. -/
def setByte (buf : Nat → Nat) (i v : Nat) : Nat → Nat :=
  fun j => if j = i then v else buf j

/-- Store a byte string starting at raw position `p`, wrapping modulo `SIZE`:
byte `k` lands at index `(p + k) % SIZE`, exactly as the two-branch
`memcpy` wrap-around code of `swclock_ringbuf_push` places it. -/
def writeBytes (buf : Nat → Nat) (p : Nat) : List Nat → (Nat → Nat)
  | [] => buf
  | b :: rest => writeBytes (setByte buf (p % SIZE) b) (p + 1) rest

/-- Read `n` bytes starting at raw position `p`, wrapping modulo `SIZE`
(the two-branch `memcpy` wrap-around of `swclock_ringbuf_pop`). -/
def readBytes (buf : Nat → Nat) (p n : Nat) : List Nat :=
  (List.range n).map fun k => buf ((p + k) % SIZE)

/-- The four little-endian bytes of the `uint32_t` size header. -/
def u32le (n : Nat) : List Nat :=
  [n % 256, n / 256 % 256, n / 65536 % 256, n / 16777216 % 256]

/-- Reassemble a `uint32_t` from its four little-endian bytes. -/
def u32dec (b : List Nat) : Nat :=
  b.getD 0 0 + 256 * b.getD 1 0 + 65536 * b.getD 2 0 + 16777216 * b.getD 3 0

/-- Function `swclock_ringbuf_push` (sw_clock_ringbuf.c lines 19-78). -/
def push (rb : swclock_ringbuf_t) (data : List Nat) : swclock_ringbuf_t × Bool :=
  if data.length = 0 ∨ data.length > SIZE / 2 then (rb, false)
  else
    let used := rb.write_pos - rb.read_pos
    let available := SIZE - used
    let total_size := 4 + data.length
    if available < total_size then
      ({ rb with overrun_flag := true, overrun_count := rb.overrun_count + 1 }, false)
    else
      let buf1 := writeBytes rb.buffer rb.write_pos (u32le data.length)
      let buf2 := writeBytes buf1 (rb.write_pos + 4) data
      ({ rb with
          buffer := buf2
          write_pos := rb.write_pos + total_size
          events_written := rb.events_written + 1 }, true)

/-- Function `swclock_ringbuf_pop` (sw_clock_ringbuf.c lines 80-146). -/
def pop (rb : swclock_ringbuf_t) (max_size : Nat) : swclock_ringbuf_t × Option (List Nat) :=
  if max_size = 0 then (rb, none)
  else if rb.write_pos = rb.read_pos then (rb, none)
  else
    let size_header := u32dec (readBytes rb.buffer rb.read_pos 4)
    if size_header = 0 ∨ size_header > max_size then (rb, none)
    else
      let data := readBytes rb.buffer (rb.read_pos + 4) size_header
      ({ rb with
          read_pos := rb.read_pos + 4 + size_header
          events_read := rb.events_read + 1 }, some data)

/-- Push a list of records in order, collecting each push's return value. -/
def pushAll (rb : swclock_ringbuf_t) : List (List Nat) → swclock_ringbuf_t × List Bool
  | [] => (rb, [])
  | d :: ds =>
      ((pushAll (push rb d).1 ds).1, (push rb d).2 :: (pushAll (push rb d).1 ds).2)

/-- Pop `n` records in order, collecting each pop's result. -/
def popN (rb : swclock_ringbuf_t) (max_size : Nat) :
    Nat → swclock_ringbuf_t × List (Option (List Nat))
  | 0 => (rb, [])
  | n + 1 =>
      ((popN (pop rb max_size).1 max_size n).1,
       (pop rb max_size).2 :: (popN (pop rb max_size).1 max_size n).2)

/-- The on-wire bytes of one record: `[u32 size][payload bytes]`. -/
def recordBytes (p : List Nat) : List Nat := u32le p.length ++ p

/-- The ring holds exactly the queue `q` of pending records: the bytes from
`read_pos` to `write_pos` are the records of `q` in order, the region fits in
the ring, and every queued record was a valid push. -/
def Encodes (rb : swclock_ringbuf_t) (q : List (List Nat)) : Prop :=
  rb.read_pos ≤ rb.write_pos ∧
  rb.write_pos - rb.read_pos ≤ SIZE ∧
  readBytes rb.buffer rb.read_pos (rb.write_pos - rb.read_pos) = (q.map recordBytes).flatten ∧
  ∀ p ∈ q, 0 < p.length ∧ p.length ≤ SIZE / 2

end Ringbuf

namespace SwClockPI

lemma rebase_pi_freq (s : State) (e : Int) : (rebase s e).pi_freq_ppm = s.pi_freq_ppm := by
  simp [rebase]

lemma clampPPM_abs (u : ℚ) : |clampPPM u| ≤ PI_MAX_PPM := by
  simp only [clampPPM, PI_MAX_PPM]
  split_ifs <;> rw [abs_le] <;> constructor <;> simp_all only [not_lt, gt_iff_lt] <;> linarith

lemma pi_step_freqInv (s : State) (dt : ℚ) (h : FreqInv s) : FreqInv (pi_step s dt) := by
  unfold pi_step
  split
  · exact h
  · unfold FreqInv
    rw [apply_ite State.pi_freq_ppm]
    by_cases hw : s.remaining_phase_ns.natAbs ≤ PHASE_EPS_NS.natAbs
    · rw [if_pos hw]; simp [PI_MAX_PPM]
    · rw [if_neg hw]; exact clampPPM_abs _

lemma update_error_pi_freq (s : State) :
    (update_error_estimates s).pi_freq_ppm = s.pi_freq_ppm := by
  simp [update_error_estimates]

lemma poll_pi_freq (s : State) (e : Int) :
    (poll s e).pi_freq_ppm =
      (if (rebase s e).pi_servo_enabled then
        pi_step (rebase s e) (if e > 0 then (e : ℚ) / 1000000000 else (POLL_NS : ℚ) / 1000000000)
      else rebase s e).pi_freq_ppm := by
  simp only [poll, update_error_pi_freq]
  split_ifs <;> rfl

lemma poll_freqInv (s : State) (e : Int) (h : FreqInv s) : FreqInv (poll s e) := by
  have h1 : FreqInv (rebase s e) := by unfold FreqInv; rw [rebase_pi_freq]; exact h
  unfold FreqInv
  rw [poll_pi_freq]
  split
  · exact pi_step_freqInv _ _ h1
  · exact h1

lemma adjtime_pi_freq (s : State) (tx : Timex) (e : Int) :
    (adjtime s tx e).pi_freq_ppm =
      if tx.modes &&& ADJ_OFFSET ≠ 0 then 0 else s.pi_freq_ppm := by
  simp only [adjtime]
  split_ifs <;> simp_all [rebase_pi_freq]

lemma adjtime_freqInv (s : State) (tx : Timex) (e : Int) (h : FreqInv s) :
    FreqInv (adjtime s tx e) := by
  unfold FreqInv
  rw [adjtime_pi_freq]
  split
  · simp [PI_MAX_PPM]
  · exact h

lemma settime_freqInv (s : State) (sec nsec e : Int) (h : FreqInv s) :
    FreqInv (settime s sec nsec e) := by
  unfold settime FreqInv
  simp [PI_MAX_PPM]

lemma step_freqInv (s : State) (op : Op) (h : FreqInv s) : FreqInv (step s op) := by
  cases op with
  | poll e => exact poll_freqInv s e h
  | adjtime tx e => exact adjtime_freqInv s tx e h
  | settime sec nsec e => exact settime_freqInv s sec nsec e h
  | enablePI =>
      show FreqInv (enable_PIServo s)
      unfold FreqInv enable_PIServo
      rw [apply_ite State.pi_freq_ppm]
      split
      · exact h
      · simp [PI_MAX_PPM]
  | disablePI =>
      show FreqInv (disable_PIServo s)
      unfold FreqInv disable_PIServo
      rw [apply_ite State.pi_freq_ppm]
      split
      · simp [PI_MAX_PPM]
      · exact h
  | disablePIOld =>
      show FreqInv (disable_pi_servo s)
      unfold FreqInv disable_pi_servo
      exact h

lemma run_freqInv (s : State) (ops : List Op) (h : FreqInv s) : FreqInv (run s ops) := by
  induction ops generalizing s with
  | nil => exact h
  | cons op rest ih => exact ih (step s op) (step_freqInv s op h)

/-- **C4** (confirmed).  Frequency clamp invariant: in every reachable state of
the PI-disciplined clock — after create, every poll / PI step, every adjtime,
settime, and every PI enable/disable — `|pi_freq_ppm| ≤ SWCLOCK_PI_MAX_PPM = 200`. -/
theorem c4_pi_freq_clamped (s : State) (h : Reachable s) : |s.pi_freq_ppm| ≤ PI_MAX_PPM := by
  obtain ⟨rt0, mono0, ops, rfl⟩ := h
  refine run_freqInv _ ops ?_
  unfold FreqInv initState
  simp [PI_MAX_PPM]

/-- Witness for `c4_pi_freq_clamped` at a concrete reachable state. -/
theorem c4_pi_freq_clamped_witness :
    |(run (initState 0 0) [Op.adjtime ⟨ADJ_OFFSET ||| ADJ_NANO, -1000000000, 0, 0, 0⟩ 0,
        Op.poll 10000000]).pi_freq_ppm| ≤ PI_MAX_PPM :=
  c4_pi_freq_clamped _ ⟨0, 0, _, rfl⟩

/-- **C1** (corrected — counterexample).  The claim asserts that for *every*
pre-state with `remaining_phase_ns ≠ 0` and every non-negative elapsed raw
interval, the rebase step never lets `|remaining_phase_ns|` grow.  It fails
when the PI-applied phase opposes the sign of the remaining phase: from
`remaining_phase_ns = 1000000` with `pi_freq_ppm = -100` and an elapsed raw
interval of 1 000 000 ns, the applied phase is −100 ns and
`swclock_rebase_now_and_update` (line 161: `remaining -= applied`) leaves
`remaining_phase_ns = 1000100`, whose magnitude exceeds the pre-state's. -/
theorem c1_rebase_not_magnitude_monotone :
    c1Pre.remaining_phase_ns ≠ 0 ∧ (0 : Int) ≤ 1000000 ∧
    ¬ ((rebase c1Pre 1000000).remaining_phase_ns.natAbs ≤
        c1Pre.remaining_phase_ns.natAbs) := by
  refine ⟨by norm_num [c1Pre, initState], by norm_num, ?_⟩
  have h : (rebase c1Pre 1000000).remaining_phase_ns = 1000100 := by
    norm_num [rebase, appliedPhase, total_factor, scaledppm_to_ppm, scaledppm_to_factor,
      truncInt, c1Pre, initState]
  have h0 : c1Pre.remaining_phase_ns = 1000000 := by norm_num [c1Pre, initState]
  rw [h, h0]; decide

/-- **C1** (corrected — amended claim).  The rebase step is magnitude-monotone
with sign preserved (or reaching 0) *provided the PI-applied phase does not
oppose the sign of the remaining phase*, i.e. whenever
`0 ≤ remaining_phase_ns * applied_phase_ns`; with an opposing applied phase of
smaller magnitude the subtraction grows the magnitude. -/
theorem c1_rebase_magnitude_monotone_same_sign (s : State) (e : Int)
    (hrem : s.remaining_phase_ns ≠ 0) (he : 0 ≤ e)
    (hsign : 0 ≤ s.remaining_phase_ns * appliedPhase s e) :
    (rebase s e).remaining_phase_ns.natAbs ≤ s.remaining_phase_ns.natAbs ∧
    (0 < s.remaining_phase_ns → 0 ≤ (rebase s e).remaining_phase_ns) ∧
    (s.remaining_phase_ns < 0 → (rebase s e).remaining_phase_ns ≤ 0) := by
  have hr : (rebase s e).remaining_phase_ns =
      if s.remaining_phase_ns.natAbs ≤ (appliedPhase s e).natAbs then 0
      else s.remaining_phase_ns - appliedPhase s e := by
    simp [rebase, hrem]
  rcases mul_nonneg_iff.mp hsign with ⟨hr1, ha1⟩ | ⟨hr1, ha1⟩ <;>
    rw [hr] <;> split <;> omega

/-- Witness for `c1_rebase_magnitude_monotone_same_sign`: remaining phase
100 000 ns, PI output +100 ppm, elapsed 1 000 000 ns (applied phase +100 ns). -/
theorem c1_rebase_magnitude_monotone_same_sign_witness :
    let s : State := { initState 0 0 with remaining_phase_ns := 100000, pi_freq_ppm := 100 }
    (rebase s 1000000).remaining_phase_ns.natAbs ≤ s.remaining_phase_ns.natAbs ∧
    (0 < s.remaining_phase_ns → 0 ≤ (rebase s 1000000).remaining_phase_ns) ∧
    (s.remaining_phase_ns < 0 → (rebase s 1000000).remaining_phase_ns ≤ 0) :=
  c1_rebase_magnitude_monotone_same_sign _ 1000000 (by norm_num [initState])
    (by norm_num)
    (by norm_num [appliedPhase, total_factor, scaledppm_to_ppm, scaledppm_to_factor,
      truncInt, initState])

/-- **C3** (corrected — counterexample).  The claim asserts that once
`|remaining_phase_ns| ≤ PHASE_EPS_NS` every subsequent poll (with no
intervening adjust or settime) leaves `remaining_phase_ns`, `pi_int_error_s`
and `pi_freq_ppm` all at 0.  From the reachable state `c3Pre` (where
`remaining_phase_ns = -10000`, within the 20 000 ns band, but the PI servo was
disabled through `swclock_disable_pi_servo` with `pi_freq_ppm = -200` and
`pi_int_error_s = -1/100` left in place), the next poll skips
`swclock_pi_step` entirely, so nothing is zeroed: the poll leaves
`remaining_phase_ns = -8000`, `pi_freq_ppm = -200`, `pi_int_error_s = -1/100`. -/
theorem c3_anti_windup_not_unconditional :
    Reachable c3Pre ∧
    c3Pre.remaining_phase_ns.natAbs ≤ PHASE_EPS_NS.natAbs ∧
    ¬ ((poll c3Pre 10000000).remaining_phase_ns = 0 ∧
       (poll c3Pre 10000000).pi_int_error_s = 0 ∧
       (poll c3Pre 10000000).pi_freq_ppm = 0) := by
  have hpre : c3Pre.remaining_phase_ns = -10000 ∧ c3Pre.pi_servo_enabled = false ∧
      c3Pre.pi_freq_ppm = -200 ∧ c3Pre.pi_int_error_s = -1/100 ∧
      c3Pre.freq_scaled_ppm = 0 := by
    norm_num +decide [c3Pre, c3Ops, c3Tx, run, step, poll, rebase, pi_step, clampPPM,
      update_error_estimates, adjtime, disable_pi_servo, initState, truncInt, appliedPhase,
      total_factor, scaledppm_to_ppm, scaledppm_to_factor, PI_KP, PI_KI, PI_MAX_PPM,
      PHASE_EPS_NS, POLL_NS, ADJ_OFFSET, ADJ_NANO, ADJ_FREQUENCY, ADJ_SETOFFSET,
      ADJ_STATUS, ADJ_TAI]
  obtain ⟨h1, h2, h3, h4, h5⟩ := hpre
  refine ⟨⟨0, 0, c3Ops, rfl⟩, by rw [h1]; decide, ?_⟩
  have hpost : (poll c3Pre 10000000).remaining_phase_ns = -8000 := by
    norm_num +decide [poll, rebase, pi_step, clampPPM, update_error_estimates, truncInt,
      appliedPhase, total_factor, scaledppm_to_ppm, scaledppm_to_factor, PI_KP, PI_KI,
      PI_MAX_PPM, PHASE_EPS_NS, POLL_NS, h1, h2, h3, h4, h5,
      apply_ite State.remaining_phase_ns]
  intro hcontra
  rw [hpost] at hcontra
  exact absurd hcontra.1 (by decide)

lemma rebase_zeroed (s : State) (e : Int) (h : AntiWindupZeroed s) :
    AntiWindupZeroed (rebase s e) := by
  obtain ⟨h1, h2, h3⟩ := h
  unfold AntiWindupZeroed rebase
  simp [h1, h2, h3]

lemma pi_step_zeroed (s : State) (dt : ℚ) (h : AntiWindupZeroed s) :
    AntiWindupZeroed (pi_step s dt) := by
  obtain ⟨h1, h2, h3⟩ := h
  unfold AntiWindupZeroed pi_step
  split
  · exact ⟨h1, h2, h3⟩
  · simp +decide [h1, h2, PHASE_EPS_NS]

lemma poll_triple (s : State) (e : Int) :
    ((poll s e).remaining_phase_ns, (poll s e).pi_int_error_s, (poll s e).pi_freq_ppm) =
      (let s2 := if (rebase s e).pi_servo_enabled then
          pi_step (rebase s e) (if e > 0 then (e : ℚ) / 1000000000 else (POLL_NS : ℚ) / 1000000000)
        else rebase s e
       (s2.remaining_phase_ns, s2.pi_int_error_s, s2.pi_freq_ppm)) := by
  simp only [poll, update_error_estimates]
  split_ifs <;> rfl

lemma poll_zeroed (s : State) (e : Int) (h : AntiWindupZeroed s) :
    AntiWindupZeroed (poll s e) := by
  have ht := poll_triple s e
  simp only at ht
  obtain ⟨g1, g2, g3⟩ : AntiWindupZeroed (if (rebase s e).pi_servo_enabled then
      pi_step (rebase s e) (if e > 0 then (e : ℚ) / 1000000000 else (POLL_NS : ℚ) / 1000000000)
    else rebase s e) := by
    split
    · exact pi_step_zeroed _ _ (rebase_zeroed s e h)
    · exact rebase_zeroed s e h
  have e1 := congrArg (fun p => p.1) ht
  have e2 := congrArg (fun p => p.2.1) ht
  have e3 := congrArg (fun p => p.2.2) ht
  simp only at e1 e2 e3
  exact ⟨e1.trans g1, e2.trans g2, e3.trans g3⟩

/-- **C3** (corrected — amended claim).  Anti-windup, as the code actually
establishes it: once the anti-windup zeroing has fired — i.e. from any state
with `remaining_phase_ns = 0`, `pi_int_error_s = 0` and `pi_freq_ppm = 0`,
which is what holds after the poll at which `|remaining_phase_ns| ≤
PHASE_EPS_NS` is observed by an enabled PI step — every subsequent sequence of
polls (with no intervening adjust or settime) leaves all three at 0.  The
unconditional form of the claim fails when the servo was disabled through
`swclock_disable_pi_servo` with residual PI state. -/
theorem c3_anti_windup_amended (s : State) (h : AntiWindupZeroed s) (es : List Int) :
    AntiWindupZeroed (es.foldl poll s) := by
  induction es generalizing s with
  | nil => exact h
  | cons e rest ih => exact ih (poll s e) (poll_zeroed s e h)

/-- Witness for `c3_anti_windup_amended`: a freshly created clock polled twice. -/
theorem c3_anti_windup_amended_witness :
    AntiWindupZeroed ([10000000, 10000000].foldl poll (initState 0 0)) :=
  c3_anti_windup_amended (initState 0 0) ⟨rfl, rfl, rfl⟩ [10000000, 10000000]

/-- **C6** (code_bug).  The adjust entry points return `TIME_OK = 0` on every
successful (non-NULL) call — that half of the claim holds — but on argument
validation failure (`InvalidArgument`: a NULL clock or NULL timex) the code
returns `-1` with `errno = EINVAL`, never the status code `TIME_BAD = 5` that
both the claim and the function's own doc comment
(sw_clock.h line 132: "TIME_BAD on failure (errno set)") prescribe. -/
theorem c6_adjtime_return_codes :
    (∀ s tx e, (adjtime_checked (some s) (some tx) e).2 = TIME_OK) ∧
    (adjtime_checked none (some ⟨0, 0, 0, 0, 0⟩) 0).2 = -1 ∧
    (adjtime_checked (some (initState 0 0)) none 0).2 = -1 ∧
    TIME_BAD = 5 ∧ (-1 : Int) ≠ TIME_BAD := by
  exact ⟨fun s tx e => rfl, rfl, rfl, rfl, by decide⟩

end SwClockPI

namespace SwClockSS

lemma map_now_last (s : State) (m : Int) : (map_now s m).1.last_out_ns = s.last_out_ns := by
  simp only [map_now]
  split_ifs <;> rfl

lemma now_ns_out_ge (s : State) (m : Int) : s.last_out_ns ≤ (now_ns s m).2 := by
  simp only [now_ns, map_now_last]
  split <;> omega

lemma now_ns_last (s : State) (m : Int) : (now_ns s m).1.last_out_ns = (now_ns s m).2 := rfl

lemma set_freq_last (s : State) (m : Int) (p : ℚ) :
    (set_freq s m p).last_out_ns = s.last_out_ns := by
  simp only [set_freq, rebaseline, map_now_last]

lemma adjust_last (s : State) (m off w : Int) :
    (adjust s m off w).last_out_ns = s.last_out_ns := by
  simp only [adjust, rebaseline, map_now_last]

lemma runOps_outputs (s : State) (ops : List Op) :
    List.Pairwise (· ≤ ·) (runOps s ops).2 ∧
    ∀ o ∈ (runOps s ops).2, s.last_out_ns ≤ o := by
  induction ops generalizing s with
  | nil => exact ⟨List.Pairwise.nil, by simp [runOps]⟩
  | cons op rest ih =>
      cases op with
      | now m =>
          obtain ⟨ihp, ihge⟩ := ih (now_ns s m).1
          have hge : s.last_out_ns ≤ (now_ns s m).2 := now_ns_out_ge s m
          have hlast : (now_ns s m).1.last_out_ns = (now_ns s m).2 := now_ns_last s m
          constructor
          · simp only [runOps]
            exact List.Pairwise.cons (fun o ho => (hlast ▸ ihge o ho)) ihp
          · intro o ho
            simp only [runOps, List.mem_cons] at ho
            rcases ho with rfl | ho
            · exact hge
            · exact le_trans hge (hlast ▸ ihge o ho)
      | setFreq m p =>
          obtain ⟨ihp, ihge⟩ := ih (set_freq s m p)
          exact ⟨ihp, fun o ho => (set_freq_last s m p ▸ ihge o ho)⟩
      | adjust m off w =>
          obtain ⟨ihp, ihge⟩ := ih (adjust s m off w)
          exact ⟨ihp, fun o ho => (adjust_last s m off w ▸ ihge o ho)⟩

/-- **C2** (confirmed).  For the scale+slew SwClock form, over every sequence
of `swclock_now_ns` calls with arbitrary interleaved `swclock_set_freq` and
`swclock_adjust` transitions (each at arbitrary monotonic instants), no call
returns a value less than a value returned by any earlier call: the backstep
guard `out = max(raw, last_out_ns)` with `last_out_ns := out` makes the output
sequence monotone non-decreasing. -/
theorem c2_now_ns_monotone (mono0 : Int) (ops : List Op) :
    List.Pairwise (· ≤ ·) (runOps (initState mono0) ops).2 :=
  (runOps_outputs (initState mono0) ops).1

/-- **C10** (confirmed).  `swclock_align_now` unconditionally replaces the
backstep floor `last_out_ns` with `target_now_ns`; concretely, on a fresh
clock a read at `mono = 1000` returns 1000, an `align_now(5)` then resets the
floor to 5, and the next read returns 5 < 1000 — the monotone guarantee of
`now_ns` holds only between `align_now` calls, not across them. -/
theorem c10_align_now_breaks_monotonicity :
    (∀ s mono target, (align_now s mono target).last_out_ns = target) ∧
    ((now_ns (initState 0) 1000).2 = 1000 ∧
     (now_ns (align_now (now_ns (initState 0) 1000).1 1000 5) 1000).2 = 5 ∧
     (now_ns (align_now (now_ns (initState 0) 1000).1 1000 5) 1000).2 <
       (now_ns (initState 0) 1000).2) := by
  refine ⟨fun s mono target => rfl, ?_, ?_, ?_⟩ <;>
    norm_num [now_ns, map_now, align_now, rebaseline, initState, llround]

end SwClockSS

namespace Monitor

lemma init_le_foldl_max (l : List ℚ) (init : ℚ) : init ≤ l.foldl max init := by
  induction l generalizing init with
  | nil => exact le_refl _
  | cons a rest ih => exact le_trans (le_max_left _ _) (ih _)

lemma le_foldl_max (l : List ℚ) (init x : ℚ) (hx : x ∈ l) : x ≤ l.foldl max init := by
  induction l generalizing init with
  | nil => cases hx
  | cons a rest ih =>
      rcases List.mem_cons.mp hx with rfl | hx
      · exact le_trans (le_max_right init x) (init_le_foldl_max rest _)
      · exact ih _ hx

lemma foldl_max_le (l : List ℚ) (init b : ℚ) (h0 : init ≤ b) (h : ∀ x ∈ l, x ≤ b) :
    l.foldl max init ≤ b := by
  induction l generalizing init with
  | nil => exact h0
  | cons a rest ih =>
      exact ih _ (max_le h0 (h a (List.mem_cons_self a rest)))
        (fun x hx => h x (List.mem_cons_of_mem a hx))

lemma truncInt_nonneg_eq_floor (q : ℚ) (h : 0 ≤ q) : truncInt q = ⌊q⌋ := by
  simp [truncInt, h]

lemma truncInt_toNat_pos_imp (q : ℚ) (h : (truncInt q).toNat ≠ 0) : 0 ≤ q := by
  by_contra hq
  push_neg at hq
  have h1 : truncInt q = -⌊-q⌋ := by simp [truncInt, not_le.mpr hq]
  have h2 : (0 : Int) ≤ ⌊-q⌋ := Int.floor_nonneg.mpr (by linarith)
  omega

/-- **C5** (corrected — counterexample).  The claim asserts
`MTIE(τ₁) ≤ MTIE(τ₂)` for `τ₁ ≤ τ₂` on any fixed TE trace.  The code computes
MTIE as the maximum *endpoint difference at exact lag m*, not the range over a
window, and that quantity is not monotone in the lag: for the trace
`te = [0, 10, 0]` (buffer continuing with 10) with `sample_dt = 1 s`,
`MTIE(1 s) = 10` but `MTIE(2 s) = 0`. -/
theorem c5_mtie_not_monotone :
    (1 : ℚ) ≤ 2 ∧
    ¬ (compute_mtie_tau (fun i => [0, 10, 0, 10].getD i 0) 3 1 1 ≤
       compute_mtie_tau (fun i => [0, 10, 0, 10].getD i 0) 3 1 2) := by
  constructor
  · norm_num
  · have h1 : compute_mtie_tau (fun i => [0, 10, 0, 10].getD i 0) 3 1 1 = 10 := by
      norm_num [compute_mtie_tau, truncInt, List.range_succ]
    have h2 : compute_mtie_tau (fun i => [0, 10, 0, 10].getD i 0) 3 1 2 = 0 := by
      norm_num [compute_mtie_tau, truncInt, List.range_succ,
        show Int.toNat 2 = 2 from rfl]
    rw [h1, h2]; norm_num

/-- **C5** (corrected — amended claim).  For a TE trace that is monotone
non-decreasing over the scanned indices (0 … count), the computed MTIE is
monotone in τ: whenever `τ₁ ≤ τ₂`, the sample interval is positive, `τ₁` maps
to a non-zero lag, and `τ₂`'s lag stays below `count`, then
`MTIE(τ₁) ≤ MTIE(τ₂)`.  For general traces the lag-difference estimator the
code uses is not monotone. -/
theorem c5_mtie_monotone_of_monotone_te (te : ℕ → ℚ) (count : ℕ)
    (sample_dt_s tau1 tau2 : ℚ)
    (hdt : 0 < sample_dt_s) (htau : tau1 ≤ tau2)
    (hmono : ∀ i j, i ≤ j → j ≤ count → te i ≤ te j)
    (hm1 : (truncInt (tau1 / sample_dt_s)).toNat ≠ 0)
    (hm2 : (truncInt (tau2 / sample_dt_s)).toNat < count) :
    compute_mtie_tau te count sample_dt_s tau1 ≤
      compute_mtie_tau te count sample_dt_s tau2 := by
  set m1 := (truncInt (tau1 / sample_dt_s)).toNat with hm1def
  set m2 := (truncInt (tau2 / sample_dt_s)).toNat with hm2def
  have hq1 : (0 : ℚ) ≤ tau1 / sample_dt_s := truncInt_toNat_pos_imp _ hm1
  have hq2 : tau1 / sample_dt_s ≤ tau2 / sample_dt_s := by gcongr
  have hm12 : m1 ≤ m2 := by
    rw [hm1def, hm2def, truncInt_nonneg_eq_floor _ hq1,
      truncInt_nonneg_eq_floor _ (le_trans hq1 hq2)]
    exact Int.toNat_le_toNat (Int.floor_le_floor hq2)
  have hmm2 : m2 ≠ 0 := by omega
  have hmc1 : ¬ (m1 ≥ count ∨ m1 = 0) := by push_neg; omega
  have hmc2 : ¬ (m2 ≥ count ∨ m2 = 0) := by push_neg; omega
  unfold compute_mtie_tau
  rw [← hm1def, ← hm2def, if_neg hmc1, if_neg hmc2]
  refine foldl_max_le _ 0 _ (init_le_foldl_max _ 0) ?_
  intro x hx
  obtain ⟨i, hi, rfl⟩ := List.mem_map.mp hx
  rw [List.mem_range] at hi
  have hi' : i ≤ count - m1 := by omega
  have hic : i + m1 ≤ count := by omega
  set j := min i (count - m2) with hjdef
  have hj2 : j + m2 ≤ count := by omega
  have hji : j ≤ i := min_le_left _ _
  have hij : i + m1 ≤ j + m2 := by
    rcases le_or_lt i (count - m2) with hcase | hcase
    · have : j = i := min_eq_left hcase
      omega
    · have : j = count - m2 := min_eq_right (le_of_lt hcase)
      omega
  have hd1 : te i ≤ te (i + m1) := hmono i (i + m1) (by omega) hic
  have hd2 : te j ≤ te (j + m2) := hmono j (j + m2) (by omega) hj2
  have hup : te (i + m1) ≤ te (j + m2) := hmono _ _ hij hj2
  have hdown : te j ≤ te i := hmono j i hji (by omega)
  have hle : |te (i + m1) - te i| ≤ |te (j + m2) - te j| := by
    rw [abs_of_nonneg (by linarith), abs_of_nonneg (by linarith)]
    linarith
  refine le_trans hle (le_foldl_max _ 0 _ ?_)
  exact List.mem_map.mpr ⟨j, List.mem_range.mpr (by omega), rfl⟩

/-- Witness for `c5_mtie_monotone_of_monotone_te`: the monotone trace
`te i = i` with three samples, `sample_dt = 1 s`, `τ₁ = 1 s`, `τ₂ = 2 s`. -/
theorem c5_mtie_monotone_of_monotone_te_witness :
    compute_mtie_tau (fun i => (i : ℚ)) 3 1 1 ≤ compute_mtie_tau (fun i => (i : ℚ)) 3 1 2 :=
  c5_mtie_monotone_of_monotone_te (fun i => (i : ℚ)) 3 1 1 2 (by norm_num) (by norm_num)
    (fun i j hij _ => by exact_mod_cast Nat.cast_le.mpr hij)
    (by norm_num [truncInt]) (by norm_num [truncInt])

end Monitor

namespace KF

lemma kf_adapt_x1 (kf : KalmanFilter) : (kf_adapt kf).x1 = kf.x1 := by
  simp only [kf_adapt]
  split_ifs <;> rfl

lemma kfDriftClamp_abs (d P11 : ℚ) : |(kfDriftClamp d P11).1| ≤ MAX_DRIFT := by
  simp only [kfDriftClamp, MAX_DRIFT]
  split_ifs with h1 h2 h3
  · norm_num
  · rw [abs_of_nonneg (by norm_num)]
  · rw [abs_neg, abs_of_nonneg (by norm_num)]
  · simpa using not_lt.mp h1

lemma kf_update_x1_le (kf : KalmanFilter) (z dt : ℚ) (h : kf.initialized = true) :
    |(kf_update kf z dt).x1| ≤ MAX_DRIFT := by
  unfold kf_update
  rw [if_neg (by simp [h])]
  simp only [apply_ite KalmanFilter.x1, kf_adapt_x1, ite_self]
  exact kfDriftClamp_abs _ _

/-- **C8** (confirmed).  KF drift safety clamp: after every `kf_update` on an
initialized filter `|drift| ≤ 50 ppb = 50e-9 s/s`; the clamp block itself
saturates an unclamped drift of magnitude in (50 ppb, 200 ppb] to ±50 ppb with
its sign kept, and for magnitudes above 200 ppb hard-resets the drift to 0
with `P[1][1] = 10`. -/
theorem c8_kf_drift_clamp (kf : KalmanFilter) (z dt d P11 : ℚ)
    (h : kf.initialized = true) :
    |(kf_update kf z dt).x1| ≤ MAX_DRIFT ∧
    (MAX_DRIFT < |d| → |d| ≤ 1/5000000 →
      kfDriftClamp d P11 = ((if d > 0 then MAX_DRIFT else -MAX_DRIFT), P11)) ∧
    (1/5000000 < |d| → kfDriftClamp d P11 = (0, 10)) := by
  refine ⟨kf_update_x1_le kf z dt h, ?_, ?_⟩
  · intro h1 h2
    simp only [kfDriftClamp]
    rw [if_pos (by exact h1), if_neg (by exact not_lt.mpr h2)]
  · intro h1
    simp only [kfDriftClamp, MAX_DRIFT]
    rw [if_pos (by rw [gt_iff_lt]; norm_num at h1 ⊢; linarith), if_pos (by exact h1)]

/-- Witness for `c8_kf_drift_clamp`: one update on a freshly initialized
filter (`kf_init(kf_create, 1e-8, 1e-6)` driven to `initialized` by a first
update at z = 0.04 s), with clamp inputs `d = 6e-8`, `P11 = 1`. -/
theorem c8_kf_drift_clamp_witness :
    (kf_update (kf_init kf_create (1/100000000) (1/1000000)) 1 (1/100)).initialized = true ∧
    (|(kf_update (kf_update (kf_init kf_create (1/100000000) (1/1000000)) 1 (1/100))
        (1/25) (1/100)).x1| ≤ MAX_DRIFT ∧
     (MAX_DRIFT < |(3/50000000 : ℚ)| → |(3/50000000 : ℚ)| ≤ 1/5000000 →
       kfDriftClamp (3/50000000) 1 =
         ((if (3/50000000 : ℚ) > 0 then MAX_DRIFT else -MAX_DRIFT), 1)) ∧
     (1/5000000 < |(3/50000000 : ℚ)| → kfDriftClamp (3/50000000) 1 = (0, 10))) := by
  constructor
  · norm_num [kf_update, kf_init, kf_create]
  · exact c8_kf_drift_clamp _ (1/25) (1/100) (3/50000000) 1
      (by norm_num [kf_update, kf_init, kf_create])

end KF

namespace Ringbuf

lemma readBytes_length (buf : Nat → Nat) (p n : Nat) : (readBytes buf p n).length = n := by
  simp [readBytes]

lemma readBytes_append (buf : Nat → Nat) (p m n : Nat) :
    readBytes buf p (m + n) = readBytes buf p m ++ readBytes buf (p + m) n := by
  unfold readBytes
  rw [List.range_add, List.map_append, List.map_map]
  congr 1
  apply List.map_congr_left
  intro k _
  simp [Function.comp, Nat.add_assoc]

lemma readBytes_succ (buf : Nat → Nat) (p n : Nat) :
    readBytes buf p (n + 1) = buf (p % SIZE) :: readBytes buf (p + 1) n := by
  unfold readBytes
  rw [List.range_succ_eq_map, List.map_cons, List.map_map]
  refine congrArg₂ _ (by simp) ?_
  apply List.map_congr_left
  intro k _
  have : p + (k + 1) = p + 1 + k := by omega
  simp [Function.comp, Nat.succ_eq_add_one, this]

lemma readBytes_take (buf : Nat → Nat) (p m n : Nat) (h : m ≤ n) :
    readBytes buf p m = (readBytes buf p n).take m := by
  obtain ⟨k, rfl⟩ := Nat.exists_eq_add_of_le h
  rw [readBytes_append, List.take_left' (readBytes_length buf p m)]

lemma readBytes_drop (buf : Nat → Nat) (p m n : Nat) :
    readBytes buf (p + m) n = (readBytes buf p (m + n)).drop m := by
  rw [readBytes_append, List.drop_left' (readBytes_length buf p m)]

lemma mod_ne_of_lt (a b : Nat) (h1 : a < b) (h2 : b - a < SIZE) : a % SIZE ≠ b % SIZE := by
  simp only [SIZE] at *
  omega

lemma writeBytes_notin (bytes : List Nat) (buf : Nat → Nat) (p i : Nat)
    (h : ∀ k, k < bytes.length → (p + k) % SIZE ≠ i) :
    writeBytes buf p bytes i = buf i := by
  induction bytes generalizing buf p with
  | nil => rfl
  | cons b rest ih =>
      rw [writeBytes, ih _ _ ?_]
      · exact if_neg (fun he => h 0 (by simp) (by simpa using he.symm))
      · intro k hk
        have hh := h (k + 1) (by simpa using Nat.succ_lt_succ hk)
        have : p + (k + 1) = p + 1 + k := by omega
        rwa [this] at hh

lemma readBytes_writeBytes (bytes : List Nat) (buf : Nat → Nat) (p : Nat)
    (h : bytes.length ≤ SIZE) :
    readBytes (writeBytes buf p bytes) p bytes.length = bytes := by
  induction bytes generalizing buf p with
  | nil => rfl
  | cons b rest ih =>
      have hlen : rest.length + 1 ≤ SIZE := by simpa using h
      rw [writeBytes, List.length_cons, readBytes_succ]
      refine congrArg₂ _ ?_ (ih _ _ (by omega))
      rw [writeBytes_notin _ _ _ _ ?_]
      · exact if_pos rfl
      · intro k hk
        exact (mod_ne_of_lt p (p + 1 + k) (by omega) (by omega)).symm

lemma readBytes_congr (buf1 buf2 : Nat → Nat) (p n : Nat)
    (h : ∀ k, k < n → buf1 ((p + k) % SIZE) = buf2 ((p + k) % SIZE)) :
    readBytes buf1 p n = readBytes buf2 p n := by
  unfold readBytes
  apply List.map_congr_left
  intro k hk
  exact h k (List.mem_range.mp hk)

lemma u32le_length (n : Nat) : (u32le n).length = 4 := rfl

lemma u32dec_u32le (n : Nat) (h : n < 4294967296) : u32dec (u32le n) = n := by
  simp only [u32le, u32dec, List.getD_cons_zero, List.getD_cons_succ]
  omega

lemma recordBytes_length (p : List Nat) : (recordBytes p).length = 4 + p.length := by
  simp [recordBytes, u32le]
  omega

lemma push_spec (rb : swclock_ringbuf_t) (q : List (List Nat)) (d : List Nat)
    (he : Encodes rb q) (hd0 : 0 < d.length) (hd1 : d.length ≤ SIZE / 2)
    (hfit : 4 + d.length ≤ SIZE - (rb.write_pos - rb.read_pos)) :
    (push rb d).2 = true ∧
    (push rb d).1.write_pos = rb.write_pos + (4 + d.length) ∧
    (push rb d).1.read_pos = rb.read_pos ∧
    Encodes (push rb d).1 (q ++ [d]) := by
  obtain ⟨hrw, hsz, hbytes, hrec⟩ := he
  have hguard : ¬(d.length = 0 ∨ d.length > SIZE / 2) := by push_neg; omega
  have havail : ¬(SIZE - (rb.write_pos - rb.read_pos) < 4 + d.length) := by omega
  have hSZ : (0:Nat) < SIZE := by norm_num [SIZE]
  unfold push
  rw [if_neg hguard, if_neg havail]
  refine ⟨rfl, rfl, rfl, by simp; omega, by simp; omega, ?_, ?_⟩
  · -- the byte contents encode q ++ [d]
    simp only
    have hw : rb.write_pos + (4 + d.length) - rb.read_pos =
        (rb.write_pos - rb.read_pos) + (4 + d.length) := by omega
    rw [hw, readBytes_append]
    have hr : rb.read_pos + (rb.write_pos - rb.read_pos) = rb.write_pos := by omega
    rw [hr]
    have hold : readBytes
        (writeBytes (writeBytes rb.buffer rb.write_pos (u32le d.length))
          (rb.write_pos + 4) d) rb.read_pos (rb.write_pos - rb.read_pos) =
        readBytes rb.buffer rb.read_pos (rb.write_pos - rb.read_pos) := by
      apply readBytes_congr
      intro k hk
      rw [writeBytes_notin, writeBytes_notin]
      · intro j hj
        rw [u32le_length] at hj
        exact (mod_ne_of_lt (rb.read_pos + k) (rb.write_pos + j) (by omega) (by omega)).symm
      · intro j hj
        exact (mod_ne_of_lt (rb.read_pos + k) (rb.write_pos + 4 + j) (by omega) (by omega)).symm
    rw [hold, hbytes]
    have hnew : readBytes
        (writeBytes (writeBytes rb.buffer rb.write_pos (u32le d.length))
          (rb.write_pos + 4) d) rb.write_pos (4 + d.length) =
        u32le d.length ++ d := by
      rw [readBytes_append]
      have hb1 : readBytes
          (writeBytes (writeBytes rb.buffer rb.write_pos (u32le d.length))
            (rb.write_pos + 4) d) rb.write_pos 4 =
          readBytes (writeBytes rb.buffer rb.write_pos (u32le d.length)) rb.write_pos 4 := by
        apply readBytes_congr
        intro k hk
        rw [writeBytes_notin]
        intro j hj
        exact (mod_ne_of_lt (rb.write_pos + k) (rb.write_pos + 4 + j) (by omega) (by omega)).symm
      rw [hb1]
      have hb2 := readBytes_writeBytes (u32le d.length) rb.buffer rb.write_pos
        (by rw [u32le_length]; omega)
      rw [u32le_length] at hb2
      rw [hb2]
      have hb3 := readBytes_writeBytes d
        (writeBytes rb.buffer rb.write_pos (u32le d.length)) (rb.write_pos + 4) (by omega)
      rw [hb3]
    rw [hnew]
    simp [recordBytes]
  · -- the record-validity bookkeeping
    intro p hp
    rcases List.mem_append.mp hp with hp | hp
    · exact hrec p hp
    · rcases List.mem_singleton.mp hp with rfl
      exact ⟨hd0, hd1⟩

lemma pop_spec (rb : swclock_ringbuf_t) (d : List Nat) (q : List (List Nat)) (max_size : Nat)
    (he : Encodes rb (d :: q)) (hmax : d.length ≤ max_size) :
    (pop rb max_size).2 = some d ∧ Encodes (pop rb max_size).1 q := by
  obtain ⟨hrw, hsz, hbytes, hrec⟩ := he
  obtain ⟨hd0, hd1⟩ := hrec d (List.mem_cons_self d q)
  have hflat : ((d :: q).map recordBytes).flatten =
      (u32le d.length ++ d) ++ (q.map recordBytes).flatten := by
    simp [recordBytes]
  rw [hflat] at hbytes
  have hlen : rb.write_pos - rb.read_pos =
      (4 + d.length) + ((q.map recordBytes).flatten).length := by
    have hl := congrArg List.length hbytes
    rw [readBytes_length] at hl
    simp only [List.length_append, u32le_length] at hl
    omega
  have hmax0 : ¬ max_size = 0 := by omega
  have hne : ¬ rb.write_pos = rb.read_pos := by omega
  have hhead : readBytes rb.buffer rb.read_pos 4 = u32le d.length := by
    rw [readBytes_take rb.buffer rb.read_pos 4 (rb.write_pos - rb.read_pos) (by omega), hbytes]
    rw [List.append_assoc, List.take_left' (u32le_length d.length)]
  have hdec : u32dec (readBytes rb.buffer rb.read_pos 4) = d.length := by
    rw [hhead]
    exact u32dec_u32le d.length (by simp only [SIZE] at hd1; omega)
  have hguard : ¬ (u32dec (readBytes rb.buffer rb.read_pos 4) = 0 ∨
      u32dec (readBytes rb.buffer rb.read_pos 4) > max_size) := by
    rw [hdec]; push_neg; omega
  have hdata : readBytes rb.buffer (rb.read_pos + 4) d.length = d := by
    rw [readBytes_drop]
    rw [readBytes_take rb.buffer rb.read_pos (4 + d.length) (rb.write_pos - rb.read_pos)
      (by omega), hbytes]
    rw [List.take_left' (by rw [List.length_append, u32le_length])]
    rw [List.drop_left' (u32le_length d.length)]
  unfold pop
  rw [if_neg hmax0, if_neg hne, if_neg hguard, hdec, hdata]
  refine ⟨rfl, by simp; omega, by simp; omega, ?_, ?_⟩
  · simp only
    have hw : rb.write_pos - (rb.read_pos + 4 + d.length) =
        ((q.map recordBytes).flatten).length := by omega
    rw [hw]
    have hp : rb.read_pos + 4 + d.length = rb.read_pos + (4 + d.length) := by omega
    rw [hp, readBytes_drop]
    have hn : 4 + d.length + ((q.map recordBytes).flatten).length =
        rb.write_pos - rb.read_pos := by omega
    rw [hn, hbytes]
    rw [List.drop_left' (by rw [List.length_append, u32le_length])]
  · intro p hp
    exact hrec p (List.mem_cons_of_mem d hp)

lemma initRB_encodes : Encodes initRB [] := by
  exact ⟨le_refl _, by simp [initRB, SIZE], rfl, by simp⟩

lemma pushAll_spec (ds : List (List Nat)) (rb : swclock_ringbuf_t) (q : List (List Nat))
    (he : Encodes rb q)
    (hall : ∀ p ∈ ds, 0 < p.length ∧ p.length ≤ SIZE / 2)
    (hsum : (rb.write_pos - rb.read_pos) + (ds.map (fun p => 4 + p.length)).sum ≤ SIZE) :
    (pushAll rb ds).2 = List.replicate ds.length true ∧
    Encodes (pushAll rb ds).1 (q ++ ds) := by
  induction ds generalizing rb q with
  | nil => exact ⟨rfl, by simpa using he⟩
  | cons d ds ih =>
      obtain ⟨hd0, hd1⟩ := hall d (List.mem_cons_self d ds)
      have hrw := he.1
      have hfit : 4 + d.length ≤ SIZE - (rb.write_pos - rb.read_pos) := by
        simp only [List.map_cons, List.sum_cons] at hsum
        omega
      obtain ⟨hok, hw, hr, he1⟩ := push_spec rb q d he hd0 hd1 hfit
      have hsum1 : ((push rb d).1.write_pos - (push rb d).1.read_pos) +
          (ds.map (fun p => 4 + p.length)).sum ≤ SIZE := by
        rw [hw, hr]
        simp only [List.map_cons, List.sum_cons] at hsum
        omega
      obtain ⟨ihok, ihenc⟩ := ih (push rb d).1 (q ++ [d]) he1
        (fun p hp => hall p (List.mem_cons_of_mem d hp)) hsum1
      refine ⟨?_, ?_⟩
      · simp only [pushAll, hok, ihok, List.length_cons, List.replicate_succ]
      · simpa only [pushAll, List.append_assoc, List.singleton_append] using ihenc

lemma popN_spec (q : List (List Nat)) (rb : swclock_ringbuf_t) (max_size : Nat)
    (he : Encodes rb q) (hmax : ∀ p ∈ q, p.length ≤ max_size) :
    (popN rb max_size q.length).2 = q.map some := by
  induction q generalizing rb with
  | nil => rfl
  | cons d q ih =>
      obtain ⟨hpop, he1⟩ := pop_spec rb d q max_size he (hmax d (List.mem_cons_self d q))
      simp only [List.length_cons, popN, hpop, List.map_cons]
      rw [ih (pop rb max_size).1 he1 (fun p hp => hmax p (List.mem_cons_of_mem d hp))]

/-- **C7** (confirmed).  Ring-buffer roundtrip: for every sequence of
`swclock_ringbuf_push` calls whose records all fit in the ring
(each `0 < size ≤ SIZE/2` per the push guard and the records fitting
together), every push succeeds and `swclock_ringbuf_pop` returns the
identical byte payloads in push order; and when a push does not fit
(insufficient space for `[u32 size][payload]`), the push returns `false`,
sets the overrun flag, and leaves the buffer and positions untouched — no
partial record is ever made visible to the consumer. -/
theorem c7_ring_roundtrip (ds : List (List Nat)) (rb : swclock_ringbuf_t) (d : List Nat)
    (hall : ∀ p ∈ ds, 0 < p.length ∧ p.length ≤ SIZE / 2)
    (hsum : (ds.map (fun p => 4 + p.length)).sum ≤ SIZE)
    (hrw : rb.read_pos ≤ rb.write_pos)
    (hd0 : 0 < d.length) (hd1 : d.length ≤ SIZE / 2)
    (hnofit : SIZE - (rb.write_pos - rb.read_pos) < 4 + d.length) :
    (pushAll initRB ds).2 = List.replicate ds.length true ∧
    (popN (pushAll initRB ds).1 SIZE ds.length).2 = ds.map some ∧
    push rb d =
      ({ rb with overrun_flag := true, overrun_count := rb.overrun_count + 1 }, false) := by
  obtain ⟨hoks, henc⟩ := pushAll_spec ds initRB [] initRB_encodes hall
    (by simpa [initRB] using hsum)
  refine ⟨hoks, ?_, ?_⟩
  · have hmax : ∀ p ∈ ds, p.length ≤ SIZE := by
      intro p hp
      have := (hall p hp).2
      omega
    simpa using popN_spec ds (pushAll initRB ds).1 SIZE (by simpa using henc) hmax
  · unfold push
    rw [if_neg (by push_neg; omega), if_pos hnofit]

/-- Witness for `c7_ring_roundtrip`: payloads `[1,2]` and `[3]` pushed into a
fresh ring and popped back; the overrun half exercised on a full ring
(`write_pos - read_pos = SIZE`) with payload `[7]`. -/
theorem c7_ring_roundtrip_witness :
    (pushAll initRB [[1, 2], [3]]).2 = List.replicate 2 true ∧
    (popN (pushAll initRB [[1, 2], [3]]).1 SIZE 2).2 = [[1, 2], [3]].map some ∧
    push { initRB with write_pos := SIZE } [7] =
      ({ { initRB with write_pos := SIZE } with
          overrun_flag := true
          overrun_count := { initRB with write_pos := SIZE }.overrun_count + 1 }, false) :=
  c7_ring_roundtrip [[1, 2], [3]] { initRB with write_pos := SIZE } [7]
    (by decide) (by decide) (by decide) (by decide) (by decide) (by decide)

end Ringbuf
